import Mathlib

/-!
Verification of the `plp_bookstore` query sheet (`queries.js`).

The repository is a list of MongoDB shell commands over a single `books`
collection.  We embed the collection as a `List Book`, the filter documents
the queries use as a small condition language, and each query or aggregation
pipeline of `queries.js` as a Lean function on the collection, then prove the
spec's testable properties about those functions.

Numeric fields: `published_year` is an integer (`Int`); `price` is modelled
as a rational (`ℚ`), the idealised semantics of the store's numeric type.
-/

namespace Bookstore

/-- A scalar value held in a field of a book document. -/
inductive BVal where
  | s (v : String)
  | i (v : Int)
  | q (v : ℚ)
  | b (v : Bool)
deriving DecidableEq

/-- A document of the `books` collection; the fields are the ones the spec's
data model lists (title, author, genre, published_year, price, in_stock). -/
structure Book where
  title : String
  author : String
  genre : String
  published_year : Int
  price : ℚ
  in_stock : Bool
deriving DecidableEq

/-- Field lookup by name, as the store resolves a field path of a filter
document or a `"$field"` expression of a pipeline. -/
def Book.getField (bk : Book) : String → Option BVal
  | "title" => some (BVal.s bk.title)
  | "author" => some (BVal.s bk.author)
  | "genre" => some (BVal.s bk.genre)
  | "published_year" => some (BVal.i bk.published_year)
  | "price" => some (BVal.q bk.price)
  | "in_stock" => some (BVal.b bk.in_stock)
  | _ => none

/-- Strict order on values: numbers compare with numbers (the only ordered
comparisons `queries.js` performs are on the integer `published_year`). -/
def BVal.lt : BVal → BVal → Bool
  | BVal.i a, BVal.i c => decide (a < c)
  | BVal.q a, BVal.q c => decide (a < c)
  | BVal.i a, BVal.q c => decide ((a : ℚ) < c)
  | BVal.q a, BVal.i c => decide (a < (c : ℚ))
  | _, _ => false

/-- A per-field condition of a filter document: the implicit `$eq`, and the
`$gt` / `$gte` comparison operators used in `queries.js`. -/
inductive FCond where
  | ceq (v : BVal)
  | cgt (v : BVal)
  | cgte (v : BVal)
deriving DecidableEq

/-- Whether a stored value satisfies one condition. -/
def matchCond (v : BVal) : FCond → Bool
  | FCond.ceq w => v == w
  | FCond.cgt w => BVal.lt w v
  | FCond.cgte w => BVal.lt w v || v == w

/-- A filter document: a conjunction of per-field conditions. -/
abbrev MFilter := List (String × FCond)

/-- Whether a book matches every condition of the filter (a condition on a
field the document does not carry never matches). -/
def matchFilter (bk : Book) (f : MFilter) : Bool :=
  f.all fun fc =>
    match bk.getField fc.1 with
    | some v => matchCond v fc.2
    | none => false

/-- `db.books.find(f)`: every document of the collection matching `f`,
in collection order. -/
def find (books : List Book) (f : MFilter) : List Book :=
  books.filter fun bk => matchFilter bk f

/-- The filter `{ published_year: { $gte: 1960 } }` of the `$match` stage
"find books published after a certain year". -/
def matchFrom1960 : MFilter := [("published_year", FCond.cgte (BVal.i 1960))]

/-- The filter `{ title: "1984" }` of the `updateOne` call. -/
def title1984 : MFilter := [("title", FCond.ceq (BVal.s "1984"))]

/-- The filter `{ title: "Brave New World" }` of the `deleteOne` call. -/
def titleBNW : MFilter := [("title", FCond.ceq (BVal.s "Brave New World"))]

/-- The filter `{ in_stock: true, published_year: { $gt: 2010 } }` of the
Task 3 in-stock query. -/
def inStockAfter2010 : MFilter :=
  [("in_stock", FCond.ceq (BVal.b true)), ("published_year", FCond.cgt (BVal.i 2010))]

/-- The update document `{ $set: { price: 12.99 } }` applied to one book. -/
def setPrice1299 (bk : Book) : Book := { bk with price := 1299 / 100 }

/-- `db.books.updateOne(f, u)`: apply the update to the first matching
document, leaving the rest of the collection as it is. -/
def updateOne (f : MFilter) (u : Book → Book) : List Book → List Book
  | [] => []
  | bk :: rest => if matchFilter bk f then u bk :: rest else bk :: updateOne f u rest

/-- `db.books.deleteOne(f)`: remove the first matching document. -/
def deleteOne (books : List Book) (f : MFilter) : List Book :=
  books.eraseP fun bk => matchFilter bk f

/-- `db.books.find().skip((pageNumber - 1) * pageSize).limit(pageSize)`:
the pagination of `queries.js` (page size 5 there, kept as a parameter). -/
def paginate (books : List Book) (pageSize pageNumber : Nat) : List Book :=
  (books.drop ((pageNumber - 1) * pageSize)).take pageSize

/-- A raw document as the schemaless store holds it: ordered field/value
pairs.  Used for the projection query, whose contract is about which fields
appear in the returned documents. -/
abbrev Doc := List (String × BVal)

/-- The projection `{ title: 1, author: 1, price: 1, _id: 0 }`: an inclusion
projection keeping exactly the included fields that are present (`_id`,
normally kept by default, is excluded here explicitly). -/
def projectTAP (d : Doc) : Doc :=
  d.filter fun kv => kv.1 == "title" || kv.1 == "author" || kv.1 == "price"

/-- `db.books.find({}, { title: 1, author: 1, price: 1, _id: 0 })`: the
empty filter matches every document, and each is projected. -/
def findProjected (docs : List Doc) : List Doc := docs.map projectTAP

/-! ### `$group` stages

A `$group` stage keeps one accumulator entry per distinct key; a document
whose key is already present updates that entry, a new key appends a fresh
one.  The three pipelines of `queries.js` instantiate this with the author
(count), the genre (running sum and count for `$avg`) and the decade bucket
(count). -/

/-- One upsert into a `$group` accumulator list. -/
def upsert {κ σ : Type} [DecidableEq κ] (k : κ) (upd : σ → σ) (ini : σ) :
    List (κ × σ) → List (κ × σ)
  | [] => [(k, ini)]
  | (k2, s) :: rest =>
    if k2 = k then (k2, upd s) :: rest else (k2, s) :: upsert k upd ini rest

/-- `$group` over the whole collection: fold every document into the
accumulator keyed by `key`. -/
def groupBy {κ σ : Type} [DecidableEq κ] (key : Book → κ) (upd : Book → σ → σ)
    (ini : Book → σ) (books : List Book) : List (κ × σ) :=
  books.foldl (fun acc bk => upsert (key bk) (upd bk) (ini bk) acc) []

/-- The accumulator entry of one key. -/
def lookupKey {κ σ : Type} [DecidableEq κ] (k : κ) : List (κ × σ) → Option σ
  | [] => none
  | (k2, s) :: rest => if k2 = k then some s else lookupKey k rest

/-- The per-key view of one `$group` accumulation step: the key's entry is
updated when present, initialised when absent. -/
def optStep {σ : Type} (upd : Book → σ → σ) (ini : Book → σ)
    (s : Option σ) (bk : Book) : Option σ :=
  some (match s with | some t => upd bk t | none => ini bk)

/-- `$group: { _id: "$author", bookCount: { $sum: 1 } }`. -/
def groupByAuthor (books : List Book) : List (String × Nat) :=
  groupBy Book.author (fun _ n => n + 1) (fun _ => 1) books

/-- `$sort: { bookCount: -1 }`: descending book count. -/
def byCountDesc (x y : String × Nat) : Prop := y.2 ≤ x.2

instance : DecidableRel byCountDesc :=
  fun x y => inferInstanceAs (Decidable (y.2 ≤ x.2))

/-- The "author with the most books" pipeline: group by author, sort by
`bookCount` descending, `$limit: 1`. -/
def topAuthorPipeline (books : List Book) : List (String × Nat) :=
  (List.insertionSort byCountDesc (groupByAuthor books)).take 1

/-- `$group: { _id: "$genre", averagePrice: { $avg: "$price" } }`: `$avg`
keeps a running (sum, count) per genre. -/
def groupByGenre (books : List Book) : List (String × ℚ × Nat) :=
  groupBy Book.genre (fun bk sn => (sn.1 + bk.price, sn.2 + 1))
    (fun bk => (bk.price, 1)) books

/-- Finalising `$avg`: each genre's running sum divided by its count. -/
def avgByGenre (books : List Book) : List (String × ℚ) :=
  (groupByGenre books).map fun e => (e.1, e.2.1 / (e.2.2 : ℚ))

/-- `$sort: { averagePrice: 1 }`: ascending average price. -/
def byAvgAsc (x y : String × ℚ) : Prop := x.2 ≤ y.2

instance : DecidableRel byAvgAsc :=
  fun x y => inferInstanceAs (Decidable (x.2 ≤ y.2))

instance : IsTotal (String × ℚ) byAvgAsc := ⟨fun x y => le_total x.2 y.2⟩

instance : IsTrans (String × ℚ) byAvgAsc := ⟨fun _ _ _ h1 h2 => le_trans h1 h2⟩

/-- The "average price by genre" pipeline: group, finalise `$avg`, sort. -/
def avgPricePipeline (books : List Book) : List (String × ℚ) :=
  List.insertionSort byAvgAsc (avgByGenre books)

/-- The books of one genre: what `_id: "$genre"` groups together. -/
def ofGenre (books : List Book) (g : String) : List Book :=
  books.filter fun bk => bk.genre = g

/-- `_id: { $floor: { $divide: ["$published_year", 10] } }`: `$divide` is
exact division and `$floor` takes the floor, so the bucket of a book is
`⌊published_year / 10⌋`. -/
def decadeKey (bk : Book) : Int := ⌊(bk.published_year : ℚ) / 10⌋

/-- `$group: { _id: <decade bucket>, bookCount: { $sum: 1 } }`. -/
def groupByDecade (books : List Book) : List (Int × Nat) :=
  groupBy decadeKey (fun _ n => n + 1) (fun _ => 1) books

/-- `$project: { decade: { $multiply: ["$_id", 10] }, bookCount: 1, _id: 0 }`. -/
def projectDecade (e : Int × Nat) : Int × Nat := (e.1 * 10, e.2)

/-- `$sort: { decade: 1 }`: ascending decade. -/
def byDecadeAsc (x y : Int × Nat) : Prop := x.1 ≤ y.1

instance : DecidableRel byDecadeAsc :=
  fun x y => inferInstanceAs (Decidable (x.1 ≤ y.1))

/-- The "books per publication decade" pipeline. -/
def decadePipeline (books : List Book) : List (Int × Nat) :=
  List.insertionSort byDecadeAsc ((groupByDecade books).map projectDecade)

/-- `ceil(count / 5)`: how many pages of size 5 cover the collection. -/
def numPages (books : List Book) : Nat := (books.length + 4) / 5

/-- Every page of size 5, for page numbers 1 through `numPages`. -/
def allPages (books : List Book) : List (List Book) :=
  (List.range (numPages books)).map fun i => paginate books 5 (i + 1)

/-! ### Concrete collections used as witnesses and counterexamples -/

/-- A collection in which two authors tie for the most books (one each). -/
def demoTie : List Book :=
  [⟨"Book A", "Alice", "Fiction", 2000, 10, true⟩,
   ⟨"Book B", "Bob", "Fiction", 2001, 11, true⟩]

/-- A collection holding two records titled "Brave New World". -/
def demoBNW : List Book :=
  [⟨"Brave New World", "Aldous Huxley", "Dystopian", 1932, 9, true⟩,
   ⟨"Brave New World", "Aldous Huxley", "Dystopian", 1932, 8, false⟩]

/-- A seven-book sample collection with exactly one "Brave New World". -/
def sampleBooks : List Book :=
  [⟨"1984", "George Orwell", "Dystopian", 1949, 10, true⟩,
   ⟨"Animal Farm", "George Orwell", "Dystopian", 1945, 8, true⟩,
   ⟨"Brave New World", "Aldous Huxley", "Dystopian", 1932, 9, false⟩,
   ⟨"The Hobbit", "J.R.R. Tolkien", "Fantasy", 1937, 12, true⟩,
   ⟨"Dune", "Frank Herbert", "Science Fiction", 1965, 14, true⟩,
   ⟨"Project Hail Mary", "Andy Weir", "Science Fiction", 2021, 18, true⟩,
   ⟨"Klara and the Sun", "Kazuo Ishiguro", "Fiction", 2021, 16, true⟩]

/-! ### Lemmas about `$group` accumulators -/

variable {κ σ : Type} [DecidableEq κ]

theorem keys_upsert (k : κ) (upd : σ → σ) (ini : σ) (l : List (κ × σ)) :
    (upsert k upd ini l).map Prod.fst =
      if k ∈ l.map Prod.fst then l.map Prod.fst else l.map Prod.fst ++ [k] := by
  induction l with
  | nil => simp [upsert]
  | cons e rest ih =>
    obtain ⟨k2, s⟩ := e
    by_cases h : k2 = k
    · subst h
      simp [upsert]
    · simp only [upsert, if_neg h, List.map_cons, List.mem_cons, ih]
      by_cases h2 : k ∈ rest.map Prod.fst <;>
        simp [h2, Ne.symm h]

theorem mem_keys_upsert (k k2 : κ) (upd : σ → σ) (ini : σ) (l : List (κ × σ)) :
    k2 ∈ (upsert k upd ini l).map Prod.fst ↔ k2 ∈ l.map Prod.fst ∨ k2 = k := by
  rw [keys_upsert]
  split_ifs with h
  · refine ⟨fun h2 => Or.inl h2, ?_⟩
    rintro (h2 | rfl)
    · exact h2
    · exact h
  · simp

theorem nodupKeys_upsert (k : κ) (upd : σ → σ) (ini : σ) (l : List (κ × σ))
    (h : (l.map Prod.fst).Nodup) : ((upsert k upd ini l).map Prod.fst).Nodup := by
  rw [keys_upsert]
  split_ifs with h2
  · exact h
  · exact List.Nodup.append h (List.nodup_singleton k)
      ((List.disjoint_singleton).mpr h2)

theorem lookupKey_upsert (k k2 : κ) (upd : σ → σ) (ini : σ) (l : List (κ × σ)) :
    lookupKey k2 (upsert k upd ini l) =
      if k2 = k then
        match lookupKey k l with
        | some s => some (upd s)
        | none => some ini
      else lookupKey k2 l := by
  induction l with
  | nil =>
    by_cases h : k2 = k
    · subst h
      simp [upsert, lookupKey]
    · have hk : ¬ k = k2 := fun h2 => h h2.symm
      simp [upsert, lookupKey, h, hk]
  | cons e rest ih =>
    obtain ⟨k3, s⟩ := e
    by_cases h3 : k3 = k
    · subst h3
      by_cases h : k2 = k3
      · subst h
        simp [upsert, lookupKey]
      · have hk : ¬ k3 = k2 := fun h2 => h h2.symm
        simp [upsert, lookupKey, h, hk]
    · by_cases h : k2 = k3
      · subst h
        have hk : ¬ k2 = k := h3
        simp [upsert, if_neg h3, lookupKey, hk]
      · have hk : ¬ k3 = k2 := fun h2 => h h2.symm
        simp [upsert, if_neg h3, lookupKey, hk, ih]

theorem mem_iff_lookupKey {l : List (κ × σ)} (h : (l.map Prod.fst).Nodup)
    (k : κ) (v : σ) : (k, v) ∈ l ↔ lookupKey k l = some v := by
  induction l with
  | nil => simp [lookupKey]
  | cons e rest ih =>
    obtain ⟨k2, s⟩ := e
    simp only [List.map_cons, List.nodup_cons] at h
    by_cases h2 : k2 = k
    · subst h2
      have hl : lookupKey k2 ((k2, s) :: rest) = some s := by simp [lookupKey]
      rw [hl]
      constructor
      · intro h3
        rcases List.mem_cons.mp h3 with h4 | h4
        · injection h4 with h5 h6
          rw [h6]
        · exact absurd (List.mem_map_of_mem Prod.fst h4) h.1
      · intro h3
        injection h3 with h4
        rw [← h4]
        exact List.mem_cons_self _ _
    · have hl : lookupKey k ((k2, s) :: rest) = lookupKey k rest := by
        simp [lookupKey, h2]
      rw [hl, ← ih h.2]
      constructor
      · intro h3
        rcases List.mem_cons.mp h3 with h4 | h4
        · injection h4 with h5 h6
          exact absurd h5.symm h2
        · exact h4
      · exact fun h3 => List.mem_cons_of_mem _ h3

theorem mem_keys_foldGroup (key : Book → κ) (upd : Book → σ → σ) (ini : Book → σ)
    (books : List Book) (acc : List (κ × σ)) (k : κ) :
    (k ∈ (books.foldl (fun a bk => upsert (key bk) (upd bk) (ini bk) a) acc).map Prod.fst) ↔
      k ∈ acc.map Prod.fst ∨ k ∈ books.map key := by
  induction books generalizing acc with
  | nil => simp
  | cons bk rest ih =>
    simp only [List.foldl_cons, List.map_cons, List.mem_cons]
    rw [ih, mem_keys_upsert]
    tauto

theorem nodupKeys_foldGroup (key : Book → κ) (upd : Book → σ → σ) (ini : Book → σ)
    (books : List Book) (acc : List (κ × σ)) (h : (acc.map Prod.fst).Nodup) :
    ((books.foldl (fun a bk => upsert (key bk) (upd bk) (ini bk) a) acc).map Prod.fst).Nodup := by
  induction books generalizing acc with
  | nil => exact h
  | cons bk rest ih =>
    exact ih _ (nodupKeys_upsert _ _ _ _ h)

theorem lookupKey_foldGroup (key : Book → κ) (upd : Book → σ → σ) (ini : Book → σ)
    (books : List Book) (acc : List (κ × σ)) (k : κ) :
    lookupKey k (books.foldl (fun a bk => upsert (key bk) (upd bk) (ini bk) a) acc) =
      (books.filter fun bk => key bk = k).foldl (optStep upd ini)
        (lookupKey k acc) := by
  induction books generalizing acc with
  | nil => simp
  | cons bk rest ih =>
    simp only [List.foldl_cons, List.filter_cons]
    rw [ih, lookupKey_upsert]
    by_cases h : key bk = k
    · subst h
      simp only [if_pos rfl, decide_eq_true_eq, if_pos rfl, List.foldl_cons]
      cases hl : lookupKey (key bk) acc <;> simp [optStep]
    · have hk : ¬ k = key bk := fun h2 => h h2.symm
      simp [h, hk]

theorem foldl_cntStep_some (l : List Book) (m : Nat) :
    l.foldl (optStep (fun _ n => n + 1) (fun _ => 1)) (some m) =
      some (m + l.length) := by
  induction l generalizing m with
  | nil => simp
  | cons bk rest ih =>
    simp only [List.foldl_cons, List.length_cons, optStep, ih]
    congr 1
    omega

theorem foldl_cntStep_none (l : List Book) (h : l ≠ []) :
    l.foldl (optStep (fun (_ : Book) (n : Nat) => n + 1) (fun _ => 1)) none =
      some l.length := by
  cases l with
  | nil => exact absurd rfl h
  | cons bk rest =>
    simp only [List.foldl_cons, optStep, foldl_cntStep_some, List.length_cons]
    congr 1
    omega

theorem foldl_avgStep_some (l : List Book) (t : ℚ × Nat) :
    l.foldl (optStep (fun bk sn => (sn.1 + bk.price, sn.2 + 1))
        (fun bk => (bk.price, 1))) (some t) =
      some (t.1 + (l.map Book.price).sum, t.2 + l.length) := by
  induction l generalizing t with
  | nil => simp
  | cons bk rest ih =>
    simp only [List.foldl_cons, optStep, ih, List.map_cons, List.sum_cons,
      List.length_cons, Option.some.injEq, Prod.mk.injEq]
    exact ⟨by ring_nf, by omega⟩

theorem foldl_avgStep_none (l : List Book) (h : l ≠ []) :
    l.foldl (optStep (fun bk sn => (sn.1 + bk.price, sn.2 + 1))
        (fun bk => (bk.price, 1))) none =
      some ((l.map Book.price).sum, l.length) := by
  cases l with
  | nil => exact absurd rfl h
  | cons bk rest =>
    simp only [List.foldl_cons, optStep, foldl_avgStep_some, List.map_cons,
      List.sum_cons, List.length_cons, Option.some.injEq, Prod.mk.injEq]
    exact ⟨by ring_nf, by omega⟩

theorem nodupKeys_groupByGenre (books : List Book) :
    ((groupByGenre books).map Prod.fst).Nodup :=
  nodupKeys_foldGroup _ _ _ _ _ (by simp)

theorem mem_groupByGenre (books : List Book) (e : String × ℚ × Nat)
    (h : e ∈ groupByGenre books) :
    ofGenre books e.1 ≠ [] ∧
      e.2.1 = ((ofGenre books e.1).map Book.price).sum ∧
      e.2.2 = (ofGenre books e.1).length := by
  have hl : lookupKey e.1 (groupByGenre books) = some e.2 :=
    (mem_iff_lookupKey (nodupKeys_groupByGenre books) e.1 e.2).mp (by simpa using h)
  rw [groupByGenre, groupBy, lookupKey_foldGroup] at hl
  by_cases hg : ofGenre books e.1 = []
  · rw [show (books.filter fun bk => Book.genre bk = e.1) = ofGenre books e.1 from rfl,
      hg] at hl
    simp [lookupKey] at hl
  · rw [show (books.filter fun bk => Book.genre bk = e.1) = ofGenre books e.1 from rfl]
      at hl
    rw [show (lookupKey e.1 ([] : List (String × ℚ × Nat))) = none from rfl,
      foldl_avgStep_none _ hg] at hl
    injection hl with hl2
    exact ⟨hg, (congrArg Prod.fst hl2).symm, (congrArg Prod.snd hl2).symm⟩

theorem mem_keys_groupByGenre (books : List Book) (g : String) :
    g ∈ (groupByGenre books).map Prod.fst ↔ g ∈ books.map Book.genre := by
  rw [groupByGenre, groupBy, mem_keys_foldGroup]
  simp

theorem nodupKeys_groupByDecade (books : List Book) :
    ((groupByDecade books).map Prod.fst).Nodup :=
  nodupKeys_foldGroup _ _ _ _ _ (by simp)

theorem mem_keys_groupByDecade (books : List Book) (k : Int) :
    k ∈ (groupByDecade books).map Prod.fst ↔ k ∈ books.map decadeKey := by
  rw [groupByDecade, groupBy, mem_keys_foldGroup]
  simp

/-! ### Filter semantics -/

theorem mem_find (books : List Book) (f : MFilter) (bk : Book) :
    bk ∈ find books f ↔ bk ∈ books ∧ matchFilter bk f = true := by
  simp [find, List.mem_filter]

theorem matchFilter_inStockAfter2010 (bk : Book) :
    matchFilter bk inStockAfter2010 = true ↔
      bk.in_stock = true ∧ 2010 < bk.published_year := by
  simp [matchFilter, inStockAfter2010, Book.getField, matchCond, BVal.lt]

theorem matchFilter_matchFrom1960 (bk : Book) :
    matchFilter bk matchFrom1960 = true ↔ 1960 ≤ bk.published_year := by
  simp only [matchFilter, matchFrom1960, Book.getField, matchCond, BVal.lt,
    List.all_cons, List.all_nil, Bool.and_true, Bool.or_eq_true,
    decide_eq_true_eq, beq_iff_eq, BVal.i.injEq]
  omega

theorem matchFilter_title1984 (bk : Book) :
    matchFilter bk title1984 = true ↔ bk.title = "1984" := by
  simp [matchFilter, title1984, Book.getField, matchCond]

theorem matchFilter_titleBNW (bk : Book) :
    matchFilter bk titleBNW = true ↔ bk.title = "Brave New World" := by
  simp [matchFilter, titleBNW, Book.getField, matchCond]

/-- Claim C8: a filter read returns exactly the subset of the collection
satisfying the predicate — membership in the result is membership in the
collection plus satisfaction of the filter, for every filter; for the
concrete filter `{ in_stock: true, published_year: { $gt: 2010 } }`
satisfaction means in-stock and published strictly after 2010. -/
theorem find_filter_exact (books : List Book) (bk : Book) (f : MFilter) :
    (bk ∈ find books f ↔ bk ∈ books ∧ matchFilter bk f = true) ∧
    (bk ∈ find books inStockAfter2010 ↔
      bk ∈ books ∧ bk.in_stock = true ∧ 2010 < bk.published_year) := by
  refine ⟨mem_find books f bk, ?_⟩
  rw [mem_find, matchFilter_inStockAfter2010]

/-- Claim C10: the "published after a certain year" query uses the inclusive
`$gte: 1960`, so it returns exactly the books with `published_year ≥ 1960`
and a book published exactly in 1960 is included, while the Task 3 in-stock
query uses the strict `$gt: 2010`, so a book published exactly in 2010 is
excluded. -/
theorem published_year_gte_vs_gt (books : List Book) (bk : Book) :
    (bk ∈ find books matchFrom1960 ↔ bk ∈ books ∧ 1960 ≤ bk.published_year) ∧
    (bk.published_year = 1960 → bk ∈ books → bk ∈ find books matchFrom1960) ∧
    (bk.published_year = 2010 → bk ∉ find books inStockAfter2010) := by
  have h1 : bk ∈ find books matchFrom1960 ↔
      bk ∈ books ∧ 1960 ≤ bk.published_year := by
    rw [mem_find, matchFilter_matchFrom1960]
  refine ⟨h1, fun hy hb => h1.mpr ⟨hb, by omega⟩, fun hy hmem => ?_⟩
  have h2 := ((mem_find _ _ _).mp hmem).2
  rw [matchFilter_inStockAfter2010] at h2
  omega

/-- Claim C9: the projection `{ title: 1, author: 1, price: 1, _id: 0 }`
keeps exactly the included fields that are present on the stored document:
every field of an output document is one of title/author/price and comes
from the stored document, every included field present on the document is
kept, `_id` never appears, and the query projects every document of the
collection. -/
theorem projection_field_set (docs : List Doc) (d : Doc) (kv : String × BVal) :
    (kv ∈ projectTAP d →
      kv ∈ d ∧ (kv.1 = "title" ∨ kv.1 = "author" ∨ kv.1 = "price")) ∧
    (kv ∈ d → (kv.1 = "title" ∨ kv.1 = "author" ∨ kv.1 = "price") →
      kv ∈ projectTAP d) ∧
    (kv.1 = "_id" → kv ∉ projectTAP d) ∧
    (d ∈ docs → projectTAP d ∈ findProjected docs) ∧
    (∀ d2 ∈ findProjected docs, ∃ d0 ∈ docs, d2 = projectTAP d0) := by
  have ha : kv ∈ projectTAP d ↔
      kv ∈ d ∧ (kv.1 = "title" ∨ kv.1 = "author" ∨ kv.1 = "price") := by
    simp [projectTAP, List.mem_filter, or_assoc]
  refine ⟨ha.mp, fun h1 h2 => ha.mpr ⟨h1, h2⟩, fun hid hmem => ?_, fun hd => ?_,
    fun d2 h2 => ?_⟩
  · rcases (ha.mp hmem).2 with h | h | h <;> rw [hid] at h <;> simp at h
  · exact List.mem_map_of_mem projectTAP hd
  · rcases List.mem_map.mp h2 with ⟨d0, hd0, heq⟩
    exact ⟨d0, hd0, heq.symm⟩

/-! ### Pagination -/

/-- Claim C5: `skip((p-1)*s)` followed by `limit(s)` is exactly the slice
`[(p-1)*s, p*s)` of the result sequence — element `i < s` of the page is
element `(p-1)*s + i` of the full sequence and the page has no element at
`i ≥ s` — and an out-of-range page is empty, not an error. -/
theorem paginate_slice (books : List Book) (s p i : Nat)
    (hs : 0 < s) (hp : 1 ≤ p) :
    (i < s → (paginate books s p)[i]? = books[(p - 1) * s + i]?) ∧
    (s ≤ i → (paginate books s p)[i]? = none) ∧
    (books.length ≤ (p - 1) * s → paginate books s p = []) := by
  refine ⟨fun hi => ?_, fun hi => ?_, fun hlen => ?_⟩
  · rw [paginate, List.getElem?_take, if_pos hi, List.getElem?_drop]
  · rw [paginate, List.getElem?_take, if_neg (by omega)]
  · rw [paginate, List.drop_eq_nil_of_le hlen, List.take_nil]

/-- Witness for C5 at the sample collection, page 2 of size 5. -/
theorem paginate_slice_witness :
    (0 < 5 → (paginate sampleBooks 5 2)[0]? = sampleBooks[(2 - 1) * 5 + 0]?) ∧
    (5 ≤ 0 → (paginate sampleBooks 5 2)[0]? = none) ∧
    (sampleBooks.length ≤ (2 - 1) * 5 → paginate sampleBooks 5 2 = []) :=
  paginate_slice sampleBooks 5 2 0 (by decide) (by decide)

theorem flatten_pages (s k : Nat) (l : List Book) :
    ((List.range k).map fun i => paginate l s (i + 1)).flatten = l.take (k * s) := by
  induction k with
  | zero => simp
  | succ k ih =>
    rw [List.range_succ, List.map_append, List.flatten_append]
    simp only [List.map_cons, List.map_nil, List.flatten_cons, List.flatten_nil,
      List.append_nil]
    rw [ih, paginate, Nat.add_sub_cancel, Nat.succ_mul, List.take_add]

/-- Claim C6: the pages of size 5 for page numbers 1 through ceil(count/5)
partition the collection — their concatenation is the whole sequence, so
every record appears exactly once with no duplicates and no omissions — and
requesting the same page twice yields the same slice. -/
theorem pages_partition (books : List Book) :
    (allPages books).flatten = books ∧
    (∀ p : Nat, paginate books 5 p = paginate books 5 p) := by
  refine ⟨?_, fun p => rfl⟩
  rw [allPages, numPages, flatten_pages]
  exact List.take_of_length_le (by omega)

/-! ### Update and delete -/

theorem mem_zip_self {α : Type} {l : List α} {pr : α × α} (h : pr ∈ l.zip l) :
    pr.1 = pr.2 := by
  induction l with
  | nil => cases h
  | cons a rest ih =>
    rw [List.zip_cons_cons] at h
    rcases List.mem_cons.mp h with h2 | h2
    · rw [h2]
    · exact ih h2

/-- Claim C3: the update with `{ title: "1984" }` and `$set { price: 12.99 }`
changes only the price field of the matching record: the collection keeps
its length, position by position each output record has the same
title/author/genre/published_year/in_stock as the input record, a
non-matching record is unchanged byte for byte, any record that did change
is a matching one whose price became 12.99, and with no match the whole
collection is unchanged. -/
theorem updateOne_price_frame (books : List Book) :
    (updateOne title1984 setPrice1299 books).length = books.length ∧
    (∀ pr ∈ (updateOne title1984 setPrice1299 books).zip books,
      (pr.1.title = pr.2.title ∧ pr.1.author = pr.2.author ∧
        pr.1.genre = pr.2.genre ∧ pr.1.published_year = pr.2.published_year ∧
        pr.1.in_stock = pr.2.in_stock) ∧
      (matchFilter pr.2 title1984 = false → pr.1 = pr.2) ∧
      (pr.1 ≠ pr.2 → pr.2.title = "1984" ∧ pr.1.price = 1299 / 100)) ∧
    ((∀ bk ∈ books, matchFilter bk title1984 = false) →
      updateOne title1984 setPrice1299 books = books) := by
  induction books with
  | nil => exact ⟨rfl, by simp [updateOne], fun _ => rfl⟩
  | cons bk rest ih =>
    by_cases h : matchFilter bk title1984
    · rw [updateOne, if_pos h]
      refine ⟨by simp, fun pr hpr => ?_, fun hno => ?_⟩
      · rw [List.zip_cons_cons] at hpr
        rcases List.mem_cons.mp hpr with h2 | h2
        · rw [h2]
          exact ⟨⟨rfl, rfl, rfl, rfl, rfl⟩,
            fun hf => Bool.noConfusion (hf ▸ h),
            fun _ => ⟨(matchFilter_title1984 bk).mp h, rfl⟩⟩
        · have he := mem_zip_self h2
          exact ⟨by rw [he]; exact ⟨rfl, rfl, rfl, rfl, rfl⟩, fun _ => he,
            fun hne => absurd he hne⟩
      · exact Bool.noConfusion ((hno bk (List.mem_cons_self bk rest)) ▸ h)
    · rw [updateOne, if_neg h]
      refine ⟨by simpa using ih.1, fun pr hpr => ?_, fun hno => ?_⟩
      · rw [List.zip_cons_cons] at hpr
        rcases List.mem_cons.mp hpr with h2 | h2
        · rw [h2]
          exact ⟨⟨rfl, rfl, rfl, rfl, rfl⟩, fun _ => rfl, fun hne => absurd rfl hne⟩
        · exact ih.2.1 pr h2
      · rw [ih.2.2 fun b2 hb2 => hno b2 (List.mem_cons_of_mem bk hb2)]

theorem eraseP_eq_filter_of_countP_le_one {p : Book → Bool} (l : List Book)
    (h : l.countP p ≤ 1) : l.eraseP p = l.filter fun a => !p a := by
  induction l with
  | nil => rfl
  | cons a rest ih =>
    rw [List.countP_cons] at h
    by_cases ha : p a
    · have h0 : rest.countP p = 0 := by
        simp only [ha, if_pos] at h
        omega
      have hself : rest.filter (fun a => !p a) = rest :=
        List.filter_eq_self.mpr fun b hb => by
          simp [List.countP_eq_zero.mp h0 b hb]
      rw [List.eraseP_cons_of_pos ha, List.filter_cons_of_neg (by simp [ha]),
        hself]
    · have ha2 : p a = false := by simpa using ha
      rw [List.eraseP_cons_of_neg ha,
        List.filter_cons_of_pos (by rw [ha2]; rfl),
        ih (by simp [ha2] at h; omega)]

/-- Claim C2 counterexample: with two records titled "Brave New World" the
`deleteOne` call removes only one of them, so the subsequent find with the
same predicate is not empty. -/
theorem deleteOne_duplicate_titles_cex :
    (demoBNW.countP fun bk => matchFilter bk titleBNW) = 2 ∧
    find (deleteOne demoBNW titleBNW) titleBNW ≠ [] := by decide

/-- Claim C2 (amended): `deleteOne` removes the first matching record; when
at most one record of the collection matches `{title: "Brave New World"}`,
it removes exactly the set of matching records and the subsequent find with
the same predicate returns the empty result. -/
theorem deleteOne_exact_when_at_most_one_match (books : List Book)
    (h : (books.countP fun bk => matchFilter bk titleBNW) ≤ 1) :
    deleteOne books titleBNW =
      books.filter (fun bk => !matchFilter bk titleBNW) ∧
    find (deleteOne books titleBNW) titleBNW = [] := by
  have h1 := eraseP_eq_filter_of_countP_le_one books h
  have h2 : deleteOne books titleBNW =
      books.filter (fun bk => !matchFilter bk titleBNW) := h1
  refine ⟨h2, ?_⟩
  rw [find, h2, List.filter_filter]
  exact List.filter_eq_nil_iff.mpr fun bk _ => by
    cases hm : matchFilter bk titleBNW <;> simp [hm]

/-- Witness for C2's amended theorem at the sample collection, which holds
exactly one "Brave New World". -/
theorem deleteOne_exact_when_at_most_one_match_witness :
    deleteOne sampleBooks titleBNW =
      sampleBooks.filter (fun bk => !matchFilter bk titleBNW) ∧
    find (deleteOne sampleBooks titleBNW) titleBNW = [] :=
  deleteOne_exact_when_at_most_one_match sampleBooks (by decide)

/-! ### Aggregation pipelines -/

/-- Claim C4: in the decade pipeline the `$group` key of a record is the
floor of `published_year / 10` — a record published in 1975 is assigned
bucket 197 — and the `$project` stage reports `decade = bucket * 10`, so
that record's reported decade is 1970 and every decade value in the output
is a multiple of 10. -/
theorem decadePipeline_buckets (books : List Book) :
    (∀ bk : Book, bk.published_year = 1975 → decadeKey bk = 197) ∧
    (∀ e ∈ decadePipeline books,
      (10 : Int) ∣ e.1 ∧ ∃ bk ∈ books, e.1 = decadeKey bk * 10) ∧
    (∀ bk ∈ books, bk.published_year = 1975 →
      ∃ e ∈ decadePipeline books, e.1 = 1970) := by
  have hkey : ∀ bk : Book, bk.published_year = 1975 → decadeKey bk = 197 := by
    intro bk h
    rw [decadeKey, h]
    norm_num
  refine ⟨hkey, fun e he => ?_, fun bk hbk hy => ?_⟩
  · rw [decadePipeline, List.mem_insertionSort] at he
    rcases List.mem_map.mp he with ⟨u, hu, heq⟩
    have hk : u.1 ∈ (groupByDecade books).map Prod.fst :=
      List.mem_map_of_mem Prod.fst hu
    rw [mem_keys_groupByDecade] at hk
    rcases List.mem_map.mp hk with ⟨b2, hb2, hkey2⟩
    refine ⟨⟨u.1, by rw [← heq]; exact mul_comm u.1 10⟩, b2, hb2, ?_⟩
    rw [← heq]
    show u.1 * 10 = decadeKey b2 * 10
    rw [hkey2]
  · have h197 : (197 : Int) ∈ books.map decadeKey :=
      List.mem_map.mpr ⟨bk, hbk, hkey bk hy⟩
    rw [← mem_keys_groupByDecade] at h197
    rcases List.mem_map.mp h197 with ⟨u, hu, hu1⟩
    refine ⟨projectDecade u, ?_, ?_⟩
    · rw [decadePipeline, List.mem_insertionSort]
      exact List.mem_map_of_mem projectDecade hu
    · show u.1 * 10 = 1970
      rw [hu1]
      rfl

/-- Claim C7: the average-price-by-genre pipeline outputs one record per
distinct genre of the collection, the averagePrice of each output record is
the arithmetic mean of the price field over the records of that genre, and
the output sequence is sorted in ascending order of averagePrice. -/
theorem avgPricePipeline_correct (books : List Book) :
    ((avgPricePipeline books).map Prod.fst).Nodup ∧
    (∀ g : String, g ∈ (avgPricePipeline books).map Prod.fst ↔
      g ∈ books.map Book.genre) ∧
    (∀ e ∈ avgPricePipeline books,
      e.2 = ((ofGenre books e.1).map Book.price).sum /
        ((ofGenre books e.1).length : ℚ)) ∧
    List.Sorted byAvgAsc (avgPricePipeline books) := by
  have hperm : List.Perm (avgPricePipeline books) (avgByGenre books) :=
    List.perm_insertionSort byAvgAsc (avgByGenre books)
  have hkeys : (avgByGenre books).map Prod.fst =
      (groupByGenre books).map Prod.fst := by
    rw [avgByGenre, List.map_map]
    rfl
  refine ⟨?_, fun g => ?_, fun e he => ?_, ?_⟩
  · exact ((hperm.map Prod.fst).nodup_iff).mpr
      (hkeys ▸ nodupKeys_groupByGenre books)
  · rw [(hperm.map Prod.fst).mem_iff, hkeys, mem_keys_groupByGenre]
  · rw [avgPricePipeline, List.mem_insertionSort] at he
    rcases List.mem_map.mp he with ⟨u, hu, heq⟩
    obtain ⟨hne, hsum, hlen⟩ := mem_groupByGenre books u hu
    rw [← heq]
    show u.2.1 / (u.2.2 : ℚ) =
      ((ofGenre books u.1).map Book.price).sum / ((ofGenre books u.1).length : ℚ)
    rw [hsum, hlen]
  · exact List.sorted_insertionSort byAvgAsc (avgByGenre books)

/-- Claim C1 fails on the code: the top-author pipeline sorts the author
groups by bookCount descending and then applies `$limit: 1`, so at a
collection where Alice and Bob tie for the most books (one each) the output
is the single record for Alice, and Bob — whose count also equals the
maximum — does not appear, although the code's own comment asks for both
tied authors to be displayed. -/
theorem topAuthor_limit_one_drops_tie :
    (∀ e ∈ groupByAuthor demoTie, e.2 ≤ 1) ∧
    ("Alice", 1) ∈ groupByAuthor demoTie ∧
    ("Bob", 1) ∈ groupByAuthor demoTie ∧
    topAuthorPipeline demoTie = [("Alice", 1)] ∧
    ("Bob", 1) ∉ topAuthorPipeline demoTie := by decide

end Bookstore
